import Mathlib

/-!
# Verification of the JSON output adapter (`bentoml/adapters/json_output.py`)

A shallow embedding of the adapter module and proofs of its specified
properties.  Python runtime values reaching the encoder are modelled by the
inductive `PyVal`; `json.dumps` (with the module's `NumpyJsonEncoder`) is
modelled at the character level by `dumpsChars`; exceptions are modelled by
`Except PyExn`.  Numeric scalars are modelled by `Int` (the adapter's claims
are about structure and error routing, not float formatting), and strings are
escaped per the JSON grammar (`escapeChar`), producing standard JSON text with
the `", "` / `": "` item separators that `json.dumps` uses by default.
-/

/-- A numpy `ndarray` as a nesting of integer items: `item` is a 0-d array
(or an element), `row` an axis.  `tolist` below models `ndarray.tolist()`. -/
inductive NpArr : Type where
  | item (n : Int)
  | row (xs : List NpArr)
deriving Repr

/-- A Python runtime value as seen by this module: native JSON-representable
values (`none` is Python's `None`), numpy boxed scalars and arrays, and `obj`,
an opaque object that no JSON encoder accepts, carrying its `str()` text. -/
inductive PyVal : Type where
  | none
  | bool (b : Bool)
  | int (n : Int)
  | str (s : String)
  | list (xs : List PyVal)
  | dict (kvs : List (String × PyVal))
  | npScalar (n : Int)
  | npArray (a : NpArr)
  | obj (s : String)
deriving Repr

mutual

/-- `ndarray.tolist()`: the equivalent nested native sequence, row-major. -/
def NpArr.tolist : NpArr → PyVal
  | .item n => .int n
  | .row xs => .list (tolistRow xs)

/-- `tolist` mapped over one axis of an array. -/
def tolistRow : List NpArr → List PyVal
  | [] => []
  | x :: xs => NpArr.tolist x :: tolistRow xs

end

/-- Decimal digit characters of `n`, most significant first (what `str` and
hence `json.dumps` print for a non-negative integer). -/
def natChars (n : Nat) : List Char :=
  if h : n < 10 then [Char.ofNat (48 + n)]
  else natChars (n / 10) ++ [Char.ofNat (48 + n % 10)]
termination_by n
decreasing_by exact Nat.div_lt_self (by omega) (by omega)

/-- The characters `json.dumps` prints for an `int`: an optional minus sign
followed by the decimal digits of the absolute value. -/
def intChars (i : Int) : List Char :=
  if i < 0 then '-' :: natChars i.natAbs else natChars i.natAbs

/-- Lower-case hexadecimal digit character for `n < 16`. -/
def hexDig (n : Nat) : Char :=
  if n < 10 then Char.ofNat (48 + n) else Char.ofNat (87 + n)

/-- JSON string escaping of one character: `"` and `\` get a backslash, other
control characters become a `\u00XX` escape, everything else stands for
itself. -/
def escapeChar (c : Char) : List Char :=
  if c = '"' then ['\\', '"']
  else if c = '\\' then ['\\', '\\']
  else if c.toNat < 32 then
    ['\\', 'u', '0', '0', hexDig (c.toNat / 16), hexDig (c.toNat % 16)]
  else [c]

/-- The characters `json.dumps` prints for a string: a quoted, escaped body. -/
def strChars (s : String) : List Char :=
  '"' :: (s.data.flatMap escapeChar ++ ['"'])

mutual

/-- JSON text of an `ndarray`: what encoding `tolist` of it produces.  (The
encoder's `default` hook returns `o.tolist()`, which `json.dumps` then
serializes; `dumpsNd` is that serialization, written by direct recursion.) -/
def dumpsNd : NpArr → List Char
  | .item n => intChars n
  | .row xs => '[' :: (dumpsNdElems xs ++ [']'])

/-- Elements of one array axis, separated by `", "`. -/
def dumpsNdElems : List NpArr → List Char
  | [] => []
  | x :: xs => dumpsNd x ++ dumpsNdSep xs

/-- Continuation of an array axis: each further element preceded by `", "`. -/
def dumpsNdSep : List NpArr → List Char
  | [] => []
  | x :: xs => ',' :: ' ' :: (dumpsNd x ++ dumpsNdSep xs)

end

mutual

/-- `json.dumps(v, cls=NumpyJsonEncoder)` at the character level.  `some` is
the produced text; `Option.none` is the `TypeError` raised when the value (or
a nested member) is not JSON serializable and the `NumpyJsonEncoder.default`
hook rejects it too.  The numpy branches are the hook's two `isinstance`
cases: a boxed scalar is unboxed by `o.item()`, an array is converted by
`o.tolist()` and re-serialized. -/
def dumpsChars : PyVal → Option (List Char)
  | .none => some ['n', 'u', 'l', 'l']
  | .bool b => some (if b then ['t', 'r', 'u', 'e'] else ['f', 'a', 'l', 's', 'e'])
  | .int n => some (intChars n)
  | .str s => some (strChars s)
  | .list xs => (dumpsElems xs).map (fun l => '[' :: (l ++ [']']))
  | .dict kvs => (dumpsPairs kvs).map (fun l => '\x7b' :: (l ++ ['\x7d']))
  | .npScalar n => some (intChars n)
  | .npArray a => some (dumpsNd a)
  | .obj _ => Option.none

/-- The elements of a JSON array, `", "`-separated. -/
def dumpsElems : List PyVal → Option (List Char)
  | [] => some []
  | x :: xs =>
    match dumpsChars x, dumpsSep xs with
    | some a, some b => some (a ++ b)
    | _, _ => Option.none

/-- Continuation of a JSON array: each further element preceded by `", "`. -/
def dumpsSep : List PyVal → Option (List Char)
  | [] => some []
  | x :: xs =>
    match dumpsChars x, dumpsSep xs with
    | some a, some b => some (',' :: ' ' :: (a ++ b))
    | _, _ => Option.none

/-- The members of a JSON object, keys rendered as strings, `": "` between
key and value, `", "` between members. -/
def dumpsPairs : List (String × PyVal) → Option (List Char)
  | [] => some []
  | (k, v) :: kvs =>
    match dumpsChars v, dumpsPairSep kvs with
    | some a, some b => some (strChars k ++ ':' :: ' ' :: (a ++ b))
    | _, _ => Option.none

/-- Continuation of a JSON object: each further member preceded by `", "`. -/
def dumpsPairSep : List (String × PyVal) → Option (List Char)
  | [] => some []
  | (k, v) :: kvs =>
    match dumpsChars v, dumpsPairSep kvs with
    | some a, some b => some (',' :: ' ' :: (strChars k ++ ':' :: ' ' :: (a ++ b)))
    | _, _ => Option.none

end

/-- The `default` hook of the module's `NumpyJsonEncoder`: a numpy boxed
scalar becomes the native value via `o.item()`, an `ndarray` becomes the
nested native sequence via `o.tolist()`; anything else falls through to the
base class, which raises `TypeError` (`Option.none` here). -/
def NumpyJsonEncoder.default : PyVal → Option PyVal
  | .npScalar n => some (.int n)
  | .npArray a => some a.tolist
  | _ => Option.none

mutual

/-- Python `repr` of a value, approximated: container shapes, quoting of
strings and numpy's `array(...)` wrapper are rendered in their usual shapes,
without modelling `repr`'s escaping rules.  Only the encoder's last-resort
fallback body depends on this text, and no claim depends on its exact form. -/
def reprChars : PyVal → List Char
  | .none => ['N', 'o', 'n', 'e']
  | .bool b => if b then ['T', 'r', 'u', 'e'] else ['F', 'a', 'l', 's', 'e']
  | .int n => intChars n
  | .str s => '\'' :: (s.data ++ ['\''])
  | .list xs => '[' :: (reprElems xs ++ [']'])
  | .dict kvs => '\x7b' :: (reprPairs kvs ++ ['\x7d'])
  | .npScalar n => intChars n
  | .npArray a => ['a', 'r', 'r', 'a', 'y', '('] ++ reprNd a ++ [')']
  | .obj s => s.data

/-- `repr` of list elements, comma-separated. -/
def reprElems : List PyVal → List Char
  | [] => []
  | [x] => reprChars x
  | x :: xs => reprChars x ++ ',' :: ' ' :: reprElems xs

/-- `repr` of dict members, comma-separated. -/
def reprPairs : List (String × PyVal) → List Char
  | [] => []
  | [(k, v)] => '\'' :: (k.data ++ '\'' :: ':' :: ' ' :: reprChars v)
  | (k, v) :: kvs =>
    '\'' :: (k.data ++ '\'' :: ':' :: ' ' :: reprChars v) ++ ',' :: ' ' :: reprPairs kvs

/-- `repr` of the data of an `ndarray`. -/
def reprNd : NpArr → List Char
  | .item n => intChars n
  | .row xs => '[' :: (reprNdElems xs ++ [']'])

/-- `repr` of one array axis, comma-separated. -/
def reprNdElems : List NpArr → List Char
  | [] => []
  | [x] => reprNd x
  | x :: xs => reprNd x ++ ',' :: ' ' :: reprNdElems xs

end

/-- Python `str(v)`: the value itself for a string, the carried text for an
opaque object, `repr` otherwise. -/
def strPy (v : PyVal) : List Char :=
  match v with
  | .str s => s.data
  | .obj s => s.data
  | _ => reprChars v

/-- The last-resort document of `jsonize`'s `except` branch:
the Python dict literal whose `json.dumps` text the branch returns. -/
def fallbackDoc (v : PyVal) : PyVal :=
  .dict [("result", .str (String.mk (strPy v)))]

/-- `jsonize(result)` from the source: `json.dumps(result, cls=NumpyJsonEncoder)`,
and when that raises (`TypeError` / `OverflowError`, i.e. `Option.none` here),
`json.dumps(dict result = str result)` instead.  The inner `getD` arm is
unreachable: encoding a one-entry dict of a string never fails (proved in
`dumpsChars_fallbackDoc` below). -/
def jsonize (v : PyVal) : String :=
  match dumpsChars v with
  | some l => String.mk l
  | Option.none => String.mk ((dumpsChars (fallbackDoc v)).getD [])

/-! ## The adapter: exceptions, envelope types, and the three surfaces -/

/-- A Python exception as the adapter's `except` clauses distinguish them:
`AssertionError` (the validation class) versus every other `Exception`; both
carry their `str(e)` text. -/
inductive PyExn : Type where
  | assertionError (msg : String)
  | otherError (msg : String)
deriving Repr, DecidableEq

/-- `bentoml.marshal.utils.SimpleRequest` (opaque to this module: the adapter
never reads a request). -/
structure SimpleRequest : Type where
  data : String
deriving Repr, DecidableEq

/-- `bentoml.marshal.utils.SimpleResponse`: status code, header pairs (or
Python `None`), body text. -/
structure SimpleResponse : Type where
  status : Nat
  headers : Option (List (String × String))
  body : String
deriving Repr, DecidableEq

/-- The response built from one attempt of the `try` block: `200` with the
`Content-Type` header on success, `400` (no headers, `str(e)` body) on
`AssertionError`, `500` (no headers, `str(e)` body) on any other exception. -/
def encResponse : Except PyExn String → SimpleResponse
  | .ok body => ⟨200, some [("Content-Type", "application/json")], body⟩
  | .error (.assertionError m) => ⟨400, Option.none, m⟩
  | .error (.otherError m) => ⟨500, Option.none, m⟩

/-- The `for i, (s, f) in enumerate(zip(slices, fallbacks))` loop of
`to_batch_response`, given the embedding `enc` of the per-caller encoding
step (`json_output = jsonize(result)`, which Python may interrupt with an
exception; the surrounding `try` block turns the outcome into a response).
A `None` selector stores the fallback unchanged; otherwise `result_conc[s]`
is fetched first, *outside* the `try` block, so an out-of-range selector
raises `IndexError` out of the whole call (the `.error` arm). -/
def batchLoop (enc : PyVal → Except PyExn String) (conc : List PyVal) :
    List (Option Nat × Option SimpleResponse) → Nat → List (Option SimpleResponse) →
    Except PyExn (List (Option SimpleResponse))
  | [], _, responses => .ok responses
  | (s, f) :: rest, i, responses =>
    match s with
    | Option.none => batchLoop enc conc rest (i + 1) (responses.set i f)
    | some idx =>
      if h : idx < conc.length then
        batchLoop enc conc rest (i + 1)
          (responses.set i (some (encResponse (enc conc[idx]))))
      else .error (.otherError "list index out of range")

/-- `to_batch_response(self, result_conc, slices, fallbacks, requests)`.
Defaults as in the source: omitted `slices` is the identity enumeration of
`result_conc`, omitted `fallbacks` is `[None] * len(slices)`.  `responses`
starts as `[None] * len(slices)` and the loop runs over `zip(slices,
fallbacks)`.  `requests` is accepted and never read.  `enc` is the embedding
of the per-item encoding step (see `batchLoop`). -/
def to_batch_response (enc : PyVal → Except PyExn String) (result_conc : List PyVal)
    (slices : Option (List (Option Nat)))
    (fallbacks : Option (List (Option SimpleResponse)))
    (_requests : Option (List SimpleRequest)) :
    Except PyExn (List (Option SimpleResponse)) :=
  let sl := slices.getD ((List.range result_conc.length).map some)
  let fb := fallbacks.getD (List.replicate sl.length Option.none)
  batchLoop enc result_conc (sl.zip fb) 0 (List.replicate sl.length Option.none)

/-- The per-caller step that `jsonize` itself performs in this embedding:
it never raises, so the step always returns `.ok` of the produced text. -/
def jsonizeE (v : PyVal) : Except PyExn String := .ok (jsonize v)

/-- What one caller's slot receives: the fallback verbatim on an absent
selector, otherwise the response built from the encoding step's outcome on
`result_conc[s]`. -/
def caller_response (enc : PyVal → Except PyExn String) (conc : List PyVal) :
    Option Nat × Option SimpleResponse → Option SimpleResponse
  | (Option.none, f) => f
  | (some idx, _) => some (encResponse (enc (conc.getD idx .none)))

/-- The loop's effect as a pure function (no exception path): each zipped
entry writes its `caller_response` at its position. -/
def writeAll (enc : PyVal → Except PyExn String) (conc : List PyVal) :
    List (Option Nat × Option SimpleResponse) → Nat → List (Option SimpleResponse) →
    List (Option SimpleResponse)
  | [], _, responses => responses
  | p :: rest, i, responses =>
    writeAll enc conc rest (i + 1) (responses.set i (caller_response enc conc p))

/-- The adapter object: its one configuration value, the `cors` string (or
Python `None`). -/
structure JsonSerializableOutput : Type where
  cors : Option String
deriving Repr, DecidableEq

/-- Python truthiness of `self.cors`: `None` and the empty string are falsy. -/
def corsTruthy : Option String → Bool
  | Option.none => false
  | some s => s ≠ ""

/-- `to_aws_lambda_event(self, result, event)`: a dict with `statusCode` 200
and `body = jsonize(result)`, plus — only when `if self.cors:` holds, i.e.
`cors` is truthy — a `headers` dict carrying `Access-Control-Allow-Origin`.
`event` is accepted and never read. -/
def to_aws_lambda_event (self : JsonSerializableOutput) (result : PyVal)
    (_event : PyVal) : PyVal :=
  let r := jsonize result
  if corsTruthy self.cors then
    .dict [("statusCode", .int 200), ("body", .str r),
      ("headers", .dict [("Access-Control-Allow-Origin", .str (self.cors.getD ""))])]
  else
    .dict [("statusCode", .int 200), ("body", .str r)]

/-- Lookup of a key in a `PyVal.dict`'s member list (first match). -/
def dictLookup (key : String) : List (String × PyVal) → Option PyVal
  | [] => Option.none
  | (k, v) :: kvs => if k = key then some v else dictLookup key kvs

/-- The fields of a returned event mapping: `Option.none` when the value is
not a dict or lacks the key. -/
def eventField (key : String) : PyVal → Option PyVal
  | .dict kvs => dictLookup key kvs
  | _ => Option.none

/-- The `argparse` configuration of `to_cli`: a single option `-o` (long form
`--output`) with `choices=["str", "json"]` and default `"str"`, over space-separated
tokens.  `acc` is the value seen so far (later occurrences win); an
unrecognized token, a missing value, or a value outside the choices is a
usage error (`.error`), which `argparse` reports and which aborts the call. -/
def parseOutputArgs : List String → Option String → Except String String
  | [], acc => .ok (acc.getD "str")
  | a :: rest, _acc =>
    if a = "-o" ∨ a = "--output" then
      match rest with
      | [] => .error "argument -o/--output: expected one argument"
      | v :: rest2 =>
        if v = "str" ∨ v = "json" then parseOutputArgs rest2 (some v)
        else .error ("argument -o/--output: invalid choice: " ++ v)
    else .error ("unrecognized arguments: " ++ a)

/-- `to_cli(self, result, args)`: parse the arguments; in `json` mode print
`jsonize(result)`, otherwise print `str(result)`.  The returned `.ok` text is
what `print` writes; `.error` is the usage failure that terminates the call. -/
def to_cli (result : PyVal) (args : List String) : Except String String :=
  match parseOutputArgs args Option.none with
  | .error e => .error e
  | .ok mode => .ok (if mode = "json" then jsonize result else String.mk (strPy result))

/-! ## A standard JSON parser (for the round-trip property)

A recursive-descent parser over `List Char`, total via a fuel argument that
`parseJson` instantiates with the input length plus one.  It accepts standard
JSON documents built from null, booleans, integers, strings (with the usual
escapes), arrays and objects, with arbitrary whitespace between tokens, and
returns the corresponding native `PyVal`. -/

/-- JSON whitespace. -/
def pyWs (c : Char) : Bool := c = ' ' ∨ c = '\t' ∨ c = '\n' ∨ c = '\r'

/-- Drop leading JSON whitespace. -/
def dropWs : List Char → List Char
  | [] => []
  | c :: r => if pyWs c then dropWs r else c :: r

/-- Decimal digit character. -/
def isDig (c : Char) : Bool := 48 ≤ c.toNat ∧ c.toNat ≤ 57

/-- Does the input begin with a decimal digit? -/
def headIsDig : List Char → Bool
  | [] => false
  | c :: _ => isDig c

/-- The value of a run of decimal digit characters, most significant first. -/
def digitsToNat (ds : List Char) : Nat :=
  ds.foldl (fun a c => a * 10 + (c.toNat - 48)) 0

/-- Read a nonempty run of decimal digits from the front of the input. -/
def readNatPart (r : List Char) : Option (Nat × List Char) :=
  if (r.takeWhile isDig).isEmpty then Option.none
  else some (digitsToNat (r.takeWhile isDig), r.dropWhile isDig)

/-- Read a JSON integer: optional minus sign, then digits. -/
def readInt : List Char → Option (Int × List Char)
  | [] => Option.none
  | c :: r =>
    if c = '-' then (readNatPart r).map (fun p => (-(p.1 : Int), p.2))
    else (readNatPart (c :: r)).map (fun p => ((p.1 : Int), p.2))

/-- The numeric value of one hexadecimal digit character. -/
def hexVal (c : Char) : Option Nat :=
  if 48 ≤ c.toNat ∧ c.toNat ≤ 57 then some (c.toNat - 48)
  else if 97 ≤ c.toNat ∧ c.toNat ≤ 102 then some (c.toNat - 87)
  else if 65 ≤ c.toNat ∧ c.toNat ≤ 70 then some (c.toNat - 55)
  else Option.none

/-- The character named by a single-letter JSON escape. -/
def unesc : Char → Option Char
  | '"' => some '"'
  | '\\' => some '\\'
  | '/' => some '/'
  | 'n' => some '\n'
  | 't' => some '\t'
  | 'r' => some '\r'
  | 'b' => some (Char.ofNat 8)
  | 'f' => some (Char.ofNat 12)
  | _ => Option.none

/-- Read a JSON string body after its opening quote: the unescaped content
characters and the input following the closing quote. -/
def readStrChars : List Char → Option (List Char × List Char)
  | [] => Option.none
  | c :: r =>
    if c = '"' then some ([], r)
    else if c = '\\' then
      match r with
      | 'u' :: h1 :: h2 :: h3 :: h4 :: r2 =>
        match hexVal h1, hexVal h2, hexVal h3, hexVal h4 with
        | some a, some b, some c2, some d =>
          (readStrChars r2).map
            (fun p => (Char.ofNat ((((a * 16 + b) * 16 + c2) * 16) + d) :: p.1, p.2))
        | _, _, _, _ => Option.none
      | e :: r2 =>
        match unesc e with
        | some ch => (readStrChars r2).map (fun p => (ch :: p.1, p.2))
        | Option.none => Option.none
      | [] => Option.none
    else (readStrChars r).map (fun p => (c :: p.1, p.2))
termination_by l => l.length
decreasing_by all_goals simp_wf <;> omega

mutual

/-- Parse one JSON value: skip whitespace, dispatch on the first character. -/
def parseItem : Nat → List Char → Option (PyVal × List Char)
  | 0, _ => Option.none
  | fu + 1, cs =>
    match dropWs cs with
    | [] => Option.none
    | c :: r =>
      if c = 'n' then
        match r with
        | 'u' :: 'l' :: 'l' :: r2 => some (PyVal.none, r2)
        | _ => Option.none
      else if c = 't' then
        match r with
        | 'r' :: 'u' :: 'e' :: r2 => some (PyVal.bool true, r2)
        | _ => Option.none
      else if c = 'f' then
        match r with
        | 'a' :: 'l' :: 's' :: 'e' :: r2 => some (PyVal.bool false, r2)
        | _ => Option.none
      else if c = '"' then
        (readStrChars r).map (fun p => (PyVal.str (String.mk p.1), p.2))
      else if c = '[' then
        match dropWs r with
        | [] => Option.none
        | d :: r2 =>
          if d = ']' then some (PyVal.list [], r2)
          else
            match parseItem fu (d :: r2) with
            | some (v, r3) =>
              match parseArrTail fu r3 with
              | some (vs, r4) => some (PyVal.list (v :: vs), r4)
              | Option.none => Option.none
            | Option.none => Option.none
      else if c = '\x7b' then
        match dropWs r with
        | [] => Option.none
        | d :: r2 =>
          if d = '\x7d' then some (PyVal.dict [], r2)
          else
            match parsePair fu (d :: r2) with
            | some (kv, r3) =>
              match parseObjTail fu r3 with
              | some (kvs, r4) => some (PyVal.dict (kv :: kvs), r4)
              | Option.none => Option.none
            | Option.none => Option.none
      else if c = '-' ∨ isDig c then
        (readInt (c :: r)).map (fun p => (PyVal.int p.1, p.2))
      else Option.none

/-- After one array element: a closing bracket ends the array, a comma is
followed by the next element. -/
def parseArrTail : Nat → List Char → Option (List PyVal × List Char)
  | 0, _ => Option.none
  | fu + 1, cs =>
    match dropWs cs with
    | [] => Option.none
    | c :: r =>
      if c = ']' then some ([], r)
      else if c = ',' then
        match parseItem fu r with
        | some (v, r2) =>
          match parseArrTail fu r2 with
          | some (vs, r3) => some (v :: vs, r3)
          | Option.none => Option.none
        | Option.none => Option.none
      else Option.none

/-- Parse one object member: a string key, a colon, a value. -/
def parsePair : Nat → List Char → Option ((String × PyVal) × List Char)
  | 0, _ => Option.none
  | fu + 1, cs =>
    match dropWs cs with
    | [] => Option.none
    | c :: r =>
      if c = '"' then
        match readStrChars r with
        | some (ks, r1) =>
          match dropWs r1 with
          | ':' :: r2 =>
            match parseItem fu r2 with
            | some (v, r3) => some ((String.mk ks, v), r3)
            | Option.none => Option.none
          | _ => Option.none
        | Option.none => Option.none
      else Option.none

/-- After one object member: a closing brace ends the object, a comma is
followed by the next member. -/
def parseObjTail : Nat → List Char → Option (List (String × PyVal) × List Char)
  | 0, _ => Option.none
  | fu + 1, cs =>
    match dropWs cs with
    | [] => Option.none
    | c :: r =>
      if c = '\x7d' then some ([], r)
      else if c = ',' then
        match parsePair fu r with
        | some (kv, r2) =>
          match parseObjTail fu r2 with
          | some (kvs, r3) => some (kv :: kvs, r3)
          | Option.none => Option.none
        | Option.none => Option.none
      else Option.none

end

/-- Parse a complete JSON document: one value, then only whitespace. -/
def parseJson (s : String) : Option PyVal :=
  match parseItem (s.data.length + 1) s.data with
  | some (v, rest) => if dropWs rest = [] then some v else Option.none
  | Option.none => Option.none

mutual

/-- A value built only from natively JSON-representable shapes: no numpy
values, no opaque objects, at any depth. -/
def isNative : PyVal → Bool
  | .none => true
  | .bool _ => true
  | .int _ => true
  | .str _ => true
  | .list xs => isNativeElems xs
  | .dict kvs => isNativePairs kvs
  | .npScalar _ => false
  | .npArray _ => false
  | .obj _ => false

/-- `isNative` over list elements. -/
def isNativeElems : List PyVal → Bool
  | [] => true
  | x :: xs => isNative x && isNativeElems xs

/-- `isNative` over dict members. -/
def isNativePairs : List (String × PyVal) → Bool
  | [] => true
  | (_, v) :: kvs => isNative v && isNativePairs kvs

end

/-! ## The assembler's loop: totality and per-position characterization -/

/-- `writeAll` never changes the length of the response buffer. -/
theorem writeAll_length (enc : PyVal → Except PyExn String) (conc : List PyVal) :
    ∀ (zs : List (Option Nat × Option SimpleResponse)) (i : Nat)
      (resp : List (Option SimpleResponse)),
      (writeAll enc conc zs i resp).length = resp.length
  | [], _, _ => rfl
  | p :: rest, i, resp => by
    show (writeAll enc conc rest (i + 1) (resp.set i (caller_response enc conc p))).length
        = resp.length
    rw [writeAll_length enc conc rest, List.length_set]

/-- When every present selector is in range, the loop is the pure `writeAll`:
the call cannot fail, whatever the encoding step does. -/
theorem batchLoop_eq_writeAll (enc : PyVal → Except PyExn String) (conc : List PyVal) :
    ∀ (zs : List (Option Nat × Option SimpleResponse)) (i : Nat)
      (resp : List (Option SimpleResponse)),
      (∀ p ∈ zs, ∀ idx, p.1 = some idx → idx < conc.length) →
      batchLoop enc conc zs i resp = .ok (writeAll enc conc zs i resp)
  | [], _, _, _ => rfl
  | (s, f) :: rest, i, resp, hv => by
    cases s with
    | none =>
      show batchLoop enc conc rest (i + 1) (resp.set i f) = _
      rw [batchLoop_eq_writeAll enc conc rest (i + 1) _
        (fun p hp => hv p (List.mem_cons_of_mem _ hp))]
      rfl
    | some idx =>
      have h : idx < conc.length := hv (some idx, f) (List.mem_cons_self _ _) idx rfl
      show (if h : idx < conc.length then _ else _) = _
      rw [dif_pos h]
      rw [batchLoop_eq_writeAll enc conc rest (i + 1) _
        (fun p hp => hv p (List.mem_cons_of_mem _ hp))]
      show Except.ok (writeAll enc conc rest (i + 1)
        (resp.set i (some (encResponse (enc conc[idx]))))) = _
      have hg : conc[idx] = conc.getD idx .none := (List.getD_eq_getElem conc .none h).symm
      rw [hg]
      rfl

/-- What each slot of the buffer holds after `writeAll`: positions `i ≤ k <
i + zs.length` hold the `caller_response` of entry `k - i`, all other
positions are untouched. -/
theorem writeAll_getElem (enc : PyVal → Except PyExn String) (conc : List PyVal) :
    ∀ (zs : List (Option Nat × Option SimpleResponse)) (i : Nat)
      (resp : List (Option SimpleResponse)),
      i + zs.length ≤ resp.length → ∀ k,
      (writeAll enc conc zs i resp)[k]? =
        if i ≤ k ∧ k < i + zs.length then (zs[k - i]?).map (caller_response enc conc)
        else resp[k]?
  | [], i, resp, _, k => by
    simp only [List.length_nil, Nat.add_zero]
    rw [if_neg (by omega)]
    rfl
  | p :: rest, i, resp, hle, k => by
    have hlen : (i + 1) + rest.length ≤ (resp.set i (caller_response enc conc p)).length := by
      rw [List.length_set]
      simp only [List.length_cons] at hle
      omega
    show (writeAll enc conc rest (i + 1) (resp.set i (caller_response enc conc p)))[k]? = _
    rw [writeAll_getElem enc conc rest (i + 1) _ hlen k]
    simp only [List.length_cons]
    by_cases hk : i + 1 ≤ k ∧ k < i + 1 + rest.length
    · rw [if_pos hk, if_pos (by omega)]
      have hki : k - i = (k - (i + 1)) + 1 := by omega
      rw [hki, List.getElem?_cons_succ]
    · rw [if_neg hk]
      by_cases hik : k = i
      · subst hik
        rw [if_pos (by omega)]
        rw [List.getElem?_set_eq_of_lt _ (by simp only [List.length_cons] at hle; omega)]
        simp
      · rw [if_neg (by omega), List.getElem?_set_ne (fun h => hik h.symm)]

/-- Zipping preserves positions: if both lists have an entry at `i`, the zip
has the pair there. -/
theorem zip_getElem_of {α β : Type} :
    ∀ (l1 : List α) (l2 : List β) (i : Nat) (a : α) (b : β),
      l1[i]? = some a → l2[i]? = some b → (l1.zip l2)[i]? = some (a, b)
  | [], _, i, _, _, h1, _ => by simp at h1
  | _ :: _, [], i, _, _, _, h2 => by simp at h2
  | x :: l1, y :: l2, 0, a, b, h1, h2 => by
    simp only [List.getElem?_cons_zero, Option.some.injEq] at h1 h2
    simp [List.zip_cons_cons, h1, h2]
  | x :: l1, y :: l2, i + 1, a, b, h1, h2 => by
    simp only [List.getElem?_cons_succ] at h1 h2
    simpa [List.zip_cons_cons] using zip_getElem_of l1 l2 i a b h1 h2

/-- The assembled batch response under the data-model assumptions (selectors
index the collection; fallbacks are parallel to selectors): the call returns
`.ok`, and every slot `k` holds exactly the `caller_response` of caller `k`. -/
theorem tbr_spec (enc : PyVal → Except PyExn String) (conc : List PyVal)
    (sl : List (Option Nat)) (fb : List (Option SimpleResponse))
    (reqs : Option (List SimpleRequest))
    (hv : ∀ s ∈ sl, ∀ idx, s = some idx → idx < conc.length)
    (hl : fb.length = sl.length) :
    ∃ out : List (Option SimpleResponse),
      to_batch_response enc conc (some sl) (some fb) reqs = .ok out ∧
      out.length = sl.length ∧
      ∀ k : Nat, out[k]? = ((sl.zip fb)[k]?).map (caller_response enc conc) := by
  have hzlen : (sl.zip fb).length = sl.length := by
    rw [List.length_zip, hl, Nat.min_self]
  have hv' : ∀ p ∈ sl.zip fb, ∀ idx, p.1 = some idx → idx < conc.length :=
    fun p hp idx he => hv p.1 (List.of_mem_zip hp).1 idx he
  refine ⟨writeAll enc conc (sl.zip fb) 0 (List.replicate sl.length Option.none), ?_, ?_, ?_⟩
  · show batchLoop enc conc (sl.zip fb) 0 (List.replicate sl.length Option.none) = _
    exact batchLoop_eq_writeAll enc conc _ 0 _ hv'
  · rw [writeAll_length, List.length_replicate]
  · intro k
    rw [writeAll_getElem enc conc _ 0 _ (by rw [List.length_replicate]; omega) k]
    by_cases hk : k < (sl.zip fb).length
    · rw [if_pos ⟨Nat.zero_le _, by omega⟩]
      congr 1
    · rw [if_neg (by omega)]
      rw [List.getElem?_eq_none (by simp only [List.length_replicate]; rw [hzlen] at hk; omega),
        List.getElem?_eq_none (by omega)]
      rfl

/-- A concrete per-caller encoding step that fails on the first collection
entry and succeeds elsewhere (used only to instantiate theorems below). -/
def encBoom : PyVal → Except PyExn String
  | .int 1 => .error (.otherError "boom")
  | _ => .ok "2"

/-- A concrete per-caller encoding step raising a validation-class failure on
the first entry and a generic failure on the second. -/
def encAssert : PyVal → Except PyExn String
  | .int 1 => .error (.assertionError "invalid")
  | .int 2 => .error (.otherError "boom")
  | _ => .ok "ok"

/-- C3: under the data model's domain assumptions (each present selector
indexes the result collection, fallbacks are parallel-indexed to selectors),
`to_batch_response` returns an ordered sequence whose length equals the
caller count, the response for caller `i` is written to output position `i`
(it is exactly `caller_response` of caller `i`'s selector/fallback pair),
positions are never reordered and every position is filled exactly once. -/
theorem to_batch_response_positions (enc : PyVal → Except PyExn String)
    (conc : List PyVal) (sl : List (Option Nat)) (fb : List (Option SimpleResponse))
    (reqs : Option (List SimpleRequest))
    (hv : ∀ s ∈ sl, ∀ idx, s = some idx → idx < conc.length)
    (hl : fb.length = sl.length) :
    ∃ out : List (Option SimpleResponse),
      to_batch_response enc conc (some sl) (some fb) reqs = .ok out ∧
      out.length = sl.length ∧
      ∀ k : Nat, out[k]? = ((sl.zip fb)[k]?).map (caller_response enc conc) :=
  tbr_spec enc conc sl fb reqs hv hl

/-- Witness for C3 at a concrete batch: collection `[1, 2]`, selectors
`[0, None, 1]`, fallback at the absent position. -/
theorem to_batch_response_positions_witness :
    ∃ out : List (Option SimpleResponse),
      to_batch_response jsonizeE [PyVal.int 1, PyVal.int 2]
        (some [some 0, Option.none, some 1])
        (some [Option.none, some (SimpleResponse.mk 501 Option.none "fb"), Option.none])
        (some []) = .ok out ∧
      out.length = [some 0, Option.none, some 1].length ∧
      ∀ k : Nat, out[k]? =
        (([some 0, Option.none, some 1].zip
          [Option.none, some (SimpleResponse.mk 501 Option.none "fb"), Option.none])[k]?).map
          (caller_response jsonizeE [PyVal.int 1, PyVal.int 2]) :=
  to_batch_response_positions jsonizeE [PyVal.int 1, PyVal.int 2]
    [some 0, Option.none, some 1]
    [Option.none, some (SimpleResponse.mk 501 Option.none "fb"), Option.none] (some [])
    (by intro s hs idx he
        simp only [List.mem_cons, List.not_mem_nil, or_false] at hs
        rcases hs with rfl | rfl | rfl <;> simp_all <;> omega)
    (by rfl)

/-- The per-position case analysis of the assembled batch (shared lemma):
the call returns a full-length `.ok`, a failing step yields its error
response at its own position, a successful step the 200 response, an absent
selector its fallback verbatim. -/
theorem tbr_cases (enc : PyVal → Except PyExn String)
    (conc : List PyVal) (sl : List (Option Nat)) (fb : List (Option SimpleResponse))
    (reqs : Option (List SimpleRequest))
    (hv : ∀ s ∈ sl, ∀ idx, s = some idx → idx < conc.length)
    (hl : fb.length = sl.length) :
    ∃ out : List (Option SimpleResponse),
      to_batch_response enc conc (some sl) (some fb) reqs = .ok out ∧
      out.length = sl.length ∧
      (∀ (i idx : Nat) (e : PyExn), sl[i]? = some (some idx) →
        enc (conc.getD idx .none) = .error e →
        out[i]? = some (some (encResponse (Except.error e)))) ∧
      (∀ (j idx : Nat) (b : String), sl[j]? = some (some idx) →
        enc (conc.getD idx .none) = .ok b →
        out[j]? = some (some (SimpleResponse.mk 200
          (some [("Content-Type", "application/json")]) b))) ∧
      (∀ (j : Nat) (f : Option SimpleResponse), sl[j]? = some Option.none →
        fb[j]? = some f → out[j]? = some f) := by
  obtain ⟨out, hok, hlen, hchar⟩ := tbr_spec enc conc sl fb reqs hv hl
  have hfb : ∀ (i : Nat) (s : Option Nat), sl[i]? = some s → ∃ f, fb[i]? = some f := by
    intro i s hsl
    have hi : i < sl.length := by
      by_contra h
      rw [List.getElem?_eq_none (by omega)] at hsl
      cases hsl
    have hif : i < fb.length := by omega
    exact ⟨fb[i], List.getElem?_eq_getElem hif⟩
  refine ⟨out, hok, hlen, ?_, ?_, ?_⟩
  · intro i idx e hsl henc
    obtain ⟨f, hf⟩ := hfb i _ hsl
    rw [hchar i, zip_getElem_of sl fb i _ _ hsl hf, Option.map_some']
    rw [show caller_response enc conc (some idx, f)
        = some (encResponse (enc (conc.getD idx PyVal.none))) from rfl, henc]
  · intro j idx b hsl henc
    obtain ⟨f, hf⟩ := hfb j _ hsl
    rw [hchar j, zip_getElem_of sl fb j _ _ hsl hf, Option.map_some']
    rw [show caller_response enc conc (some idx, f)
        = some (encResponse (enc (conc.getD idx PyVal.none))) from rfl, henc]
    rfl
  · intro j f hsl hf
    rw [hchar j, zip_getElem_of sl fb j _ _ hsl hf, Option.map_some']
    rfl

/-- C2: a failure of the per-caller encoding step for caller `i` yields the
error response at position `i` only: the call still returns `.ok` with the
full-length output (no failure path terminates the call), every other caller
with a successful step still receives its normal 200 response, and absent
callers their fallback. -/
theorem to_batch_response_isolation (enc : PyVal → Except PyExn String)
    (conc : List PyVal) (sl : List (Option Nat)) (fb : List (Option SimpleResponse))
    (reqs : Option (List SimpleRequest))
    (hv : ∀ s ∈ sl, ∀ idx, s = some idx → idx < conc.length)
    (hl : fb.length = sl.length) :
    ∃ out : List (Option SimpleResponse),
      to_batch_response enc conc (some sl) (some fb) reqs = .ok out ∧
      out.length = sl.length ∧
      (∀ (i idx : Nat) (e : PyExn), sl[i]? = some (some idx) →
        enc (conc.getD idx .none) = .error e →
        out[i]? = some (some (encResponse (Except.error e)))) ∧
      (∀ (j idx : Nat) (b : String), sl[j]? = some (some idx) →
        enc (conc.getD idx .none) = .ok b →
        out[j]? = some (some (SimpleResponse.mk 200
          (some [("Content-Type", "application/json")]) b))) ∧
      (∀ (j : Nat) (f : Option SimpleResponse), sl[j]? = some Option.none →
        fb[j]? = some f → out[j]? = some f) :=
  tbr_cases enc conc sl fb reqs hv hl

/-- Witness for C2: caller 0's step fails, caller 2's succeeds, caller 1 is
absent; the output is total and each position carries its own outcome. -/
theorem to_batch_response_isolation_witness :
    ∃ out : List (Option SimpleResponse),
      to_batch_response encBoom [PyVal.int 1, PyVal.int 2]
        (some [some 0, Option.none, some 1])
        (some [Option.none, some (SimpleResponse.mk 501 Option.none "fb"), Option.none])
        Option.none = .ok out ∧
      out.length = [some 0, Option.none, some 1].length ∧
      (∀ (i idx : Nat) (e : PyExn),
        [some 0, Option.none, some 1][i]? = some (some idx) →
        encBoom ([PyVal.int 1, PyVal.int 2].getD idx .none) = .error e →
        out[i]? = some (some (encResponse (Except.error e)))) ∧
      (∀ (j idx : Nat) (b : String),
        [some 0, Option.none, some 1][j]? = some (some idx) →
        encBoom ([PyVal.int 1, PyVal.int 2].getD idx .none) = .ok b →
        out[j]? = some (some (SimpleResponse.mk 200
          (some [("Content-Type", "application/json")]) b))) ∧
      (∀ (j : Nat) (f : Option SimpleResponse),
        [some 0, Option.none, some 1][j]? = some Option.none →
        [Option.none, some (SimpleResponse.mk 501 Option.none "fb"), Option.none][j]? = some f →
        out[j]? = some f) :=
  to_batch_response_isolation encBoom [PyVal.int 1, PyVal.int 2]
    [some 0, Option.none, some 1]
    [Option.none, some (SimpleResponse.mk 501 Option.none "fb"), Option.none] Option.none
    (by intro s hs idx he
        simp only [List.mem_cons, List.not_mem_nil, or_false] at hs
        rcases hs with rfl | rfl | rfl <;> simp_all <;> omega)
    (by rfl)

/-- C4: per caller `i`, an absence-marker selector passes `fallbacks[i]`
through verbatim (no encoding), and a present selector whose encoding step
succeeds yields a response with status 200, exactly the single header pair
`Content-Type: application/json`, and the encoded payload as body. -/
theorem to_batch_response_per_caller (enc : PyVal → Except PyExn String)
    (conc : List PyVal) (sl : List (Option Nat)) (fb : List (Option SimpleResponse))
    (reqs : Option (List SimpleRequest))
    (hv : ∀ s ∈ sl, ∀ idx, s = some idx → idx < conc.length)
    (hl : fb.length = sl.length) :
    ∃ out : List (Option SimpleResponse),
      to_batch_response enc conc (some sl) (some fb) reqs = .ok out ∧
      (∀ (i : Nat) (f : Option SimpleResponse), sl[i]? = some Option.none →
        fb[i]? = some f → out[i]? = some f) ∧
      (∀ (i idx : Nat) (b : String), sl[i]? = some (some idx) →
        enc (conc.getD idx .none) = .ok b →
        out[i]? = some (some (SimpleResponse.mk 200
          (some [("Content-Type", "application/json")]) b))) := by
  obtain ⟨out, hok, _, hpass, h200, habs⟩ :=
    tbr_cases enc conc sl fb reqs hv hl
  exact ⟨out, hok, habs, h200⟩

/-- Witness for C4: an absent caller receives its fallback verbatim and a
present caller a 200 response with the single content-type header. -/
theorem to_batch_response_per_caller_witness :
    ∃ out : List (Option SimpleResponse),
      to_batch_response jsonizeE [PyVal.int 7]
        (some [Option.none, some 0])
        (some [some (SimpleResponse.mk 501 Option.none "fb"), Option.none])
        Option.none = .ok out ∧
      (∀ (i : Nat) (f : Option SimpleResponse),
        [Option.none, some 0][i]? = some Option.none →
        [some (SimpleResponse.mk 501 Option.none "fb"), Option.none][i]? = some f →
        out[i]? = some f) ∧
      (∀ (i idx : Nat) (b : String), [Option.none, some 0][i]? = some (some idx) →
        jsonizeE ([PyVal.int 7].getD idx .none) = .ok b →
        out[i]? = some (some (SimpleResponse.mk 200
          (some [("Content-Type", "application/json")]) b))) :=
  to_batch_response_per_caller jsonizeE [PyVal.int 7]
    [Option.none, some 0]
    [some (SimpleResponse.mk 501 Option.none "fb"), Option.none] Option.none
    (by intro s hs idx he
        simp only [List.mem_cons, List.not_mem_nil, or_false] at hs
        rcases hs with rfl | rfl <;> simp_all)
    (by rfl)

/-- C5: a validation-class failure (`AssertionError`) of the per-caller step
yields a response with status 400, no headers, and the failure's text as
body; any other failure yields status 500, no headers, and the failure's
text as body. -/
theorem to_batch_response_error_codes (enc : PyVal → Except PyExn String)
    (conc : List PyVal) (sl : List (Option Nat)) (fb : List (Option SimpleResponse))
    (reqs : Option (List SimpleRequest))
    (hv : ∀ s ∈ sl, ∀ idx, s = some idx → idx < conc.length)
    (hl : fb.length = sl.length) :
    ∃ out : List (Option SimpleResponse),
      to_batch_response enc conc (some sl) (some fb) reqs = .ok out ∧
      (∀ (i idx : Nat) (m : String), sl[i]? = some (some idx) →
        enc (conc.getD idx .none) = .error (.assertionError m) →
        out[i]? = some (some (SimpleResponse.mk 400 Option.none m))) ∧
      (∀ (i idx : Nat) (m : String), sl[i]? = some (some idx) →
        enc (conc.getD idx .none) = .error (.otherError m) →
        out[i]? = some (some (SimpleResponse.mk 500 Option.none m))) := by
  obtain ⟨out, hok, _, herr, _, _⟩ :=
    tbr_cases enc conc sl fb reqs hv hl
  exact ⟨out, hok,
    fun i idx m hsl henc => herr i idx (.assertionError m) hsl henc,
    fun i idx m hsl henc => herr i idx (.otherError m) hsl henc⟩

/-- Witness for C5: caller 0 hits a validation failure (400), caller 1 a
generic failure (500). -/
theorem to_batch_response_error_codes_witness :
    ∃ out : List (Option SimpleResponse),
      to_batch_response encAssert [PyVal.int 1, PyVal.int 2]
        (some [some 0, some 1]) (some [Option.none, Option.none])
        Option.none = .ok out ∧
      (∀ (i idx : Nat) (m : String), [some 0, some 1][i]? = some (some idx) →
        encAssert ([PyVal.int 1, PyVal.int 2].getD idx .none) = .error (.assertionError m) →
        out[i]? = some (some (SimpleResponse.mk 400 Option.none m))) ∧
      (∀ (i idx : Nat) (m : String), [some 0, some 1][i]? = some (some idx) →
        encAssert ([PyVal.int 1, PyVal.int 2].getD idx .none) = .error (.otherError m) →
        out[i]? = some (some (SimpleResponse.mk 500 Option.none m))) :=
  to_batch_response_error_codes encAssert [PyVal.int 1, PyVal.int 2]
    [some 0, some 1] [Option.none, Option.none] Option.none
    (by intro s hs idx he
        simp only [List.mem_cons, List.not_mem_nil, or_false] at hs
        rcases hs with rfl | rfl <;> simp_all <;> omega)
    (by rfl)

/-- C10: the `requests` argument has no effect on the produced responses:
two invocations agreeing on everything else are equal. -/
theorem to_batch_response_ignores_requests (enc : PyVal → Except PyExn String)
    (conc : List PyVal) (slices : Option (List (Option Nat)))
    (fallbacks : Option (List (Option SimpleResponse)))
    (r1 r2 : Option (List SimpleRequest)) :
    to_batch_response enc conc slices fallbacks r1
      = to_batch_response enc conc slices fallbacks r2 := rfl

/-! ## The event surface (cors) and the CLI surface -/

/-- The headers suppression is decided by Python truthiness of `self.cors`:
the claim's "non-null" reading fails at the empty string.  Concretely, with
`cors = some ""` (non-null) the returned mapping has no `headers` key. -/
theorem to_aws_lambda_event_empty_cors_no_headers :
    (some "" ≠ (Option.none : Option String)) ∧
    eventField "headers" (to_aws_lambda_event ⟨some ""⟩ PyVal.none PyVal.none)
      = Option.none := by
  refine ⟨by simp, ?_⟩
  rfl

/-- C6 (amended): the event mapping always has `statusCode = 200` and
`body = jsonize result`; it carries the `Access-Control-Allow-Origin` header
exactly when `cors` is truthy (non-null *and* nonempty), and has no `headers`
key at all when `cors` is `None` or the empty string. -/
theorem to_aws_lambda_event_spec (cors : Option String) (result event : PyVal) :
    eventField "statusCode" (to_aws_lambda_event ⟨cors⟩ result event)
      = some (.int 200) ∧
    eventField "body" (to_aws_lambda_event ⟨cors⟩ result event)
      = some (.str (jsonize result)) ∧
    (∀ c : String, cors = some c → c ≠ "" →
      eventField "headers" (to_aws_lambda_event ⟨cors⟩ result event)
        = some (.dict [("Access-Control-Allow-Origin", .str c)])) ∧
    ((cors = Option.none ∨ cors = some "") →
      eventField "headers" (to_aws_lambda_event ⟨cors⟩ result event)
        = Option.none) := by
  cases cors with
  | none =>
    refine ⟨rfl, rfl, ?_, fun _ => rfl⟩
    intro c hc
    cases hc
  | some c0 =>
    by_cases h0 : c0 = ""
    · subst h0
      refine ⟨rfl, rfl, ?_, fun _ => rfl⟩
      intro c hc hne
      cases hc
      exact absurd rfl hne
    · have ht : corsTruthy (some c0) = true := by
        simp [corsTruthy, h0]
      refine ⟨?_, ?_, ?_, ?_⟩
      · simp [to_aws_lambda_event, ht, eventField, dictLookup]
      · simp [to_aws_lambda_event, ht, eventField, dictLookup]
      · intro c hc _
        cases hc
        simp [to_aws_lambda_event, ht, eventField, dictLookup]
      · intro hc
        rcases hc with hc | hc
        · cases hc
        · cases hc
          exact absurd rfl h0

/-- Witness for C6 (amended) at `cors = "*"`: the header pair is emitted. -/
theorem to_aws_lambda_event_spec_witness :
    eventField "headers" (to_aws_lambda_event ⟨some "*"⟩ (PyVal.int 3) PyVal.none)
      = some (.dict [("Access-Control-Allow-Origin", .str "*")]) :=
  (to_aws_lambda_event_spec (some "*") (PyVal.int 3) PyVal.none).2.2.1 "*" rfl
    (by decide)

/-- C9: `to_cli` recognizes exactly the option `-o` (alias `--output`) with
values `str` (the default) and `json`: `json` prints `jsonize result`, `str`
or no flag prints the plain text representation `str(result)`, any other
option value is an invalid-choice usage error, and any unrecognized token is
a usage error; both errors terminate the call. -/
theorem to_cli_output_modes (r : PyVal) :
    to_cli r [] = .ok (String.mk (strPy r)) ∧
    to_cli r ["-o", "str"] = .ok (String.mk (strPy r)) ∧
    to_cli r ["-o", "json"] = .ok (jsonize r) ∧
    to_cli r ["--output", "json"] = .ok (jsonize r) ∧
    (∀ v : String, v ≠ "str" → v ≠ "json" →
      to_cli r ["-o", v] = .error ("argument -o/--output: invalid choice: " ++ v)) ∧
    (∀ t : String, t ≠ "-o" → t ≠ "--output" → ∀ rest : List String,
      to_cli r (t :: rest) = .error ("unrecognized arguments: " ++ t)) := by
  refine ⟨rfl, rfl, rfl, rfl, ?_, ?_⟩
  · intro v h1 h2
    simp [to_cli, parseOutputArgs, h1, h2]
  · intro t h1 h2 rest
    have hp : parseOutputArgs (t :: rest) Option.none
        = .error ("unrecognized arguments: " ++ t) := by
      rw [parseOutputArgs.eq_def]
      simp [h1, h2]
    simp [to_cli, hp]

/-- Witness for C9: json mode, an invalid option value, and an unrecognized
token, each at a concrete input. -/
theorem to_cli_output_modes_witness :
    to_cli (PyVal.int 5) ["-o", "json"] = .ok (jsonize (PyVal.int 5)) ∧
    to_cli (PyVal.int 5) ["-o", "xml"]
      = .error ("argument -o/--output: invalid choice: " ++ "xml") ∧
    to_cli (PyVal.int 5) ["--bogus"]
      = .error ("unrecognized arguments: " ++ "--bogus") :=
  ⟨(to_cli_output_modes (PyVal.int 5)).2.2.1,
   (to_cli_output_modes (PyVal.int 5)).2.2.2.2.1 "xml" (by decide) (by decide),
   (to_cli_output_modes (PyVal.int 5)).2.2.2.2.2 "--bogus" (by decide) (by decide) []⟩

/-! ## The encoder's last-resort guarantee and the numpy special cases -/

/-- Encoding the last-resort document never fails: it is a one-entry dict
whose value is a string. -/
theorem dumpsChars_fallbackDoc (v : PyVal) :
    dumpsChars (fallbackDoc v)
      = some ('\x7b' :: ((strChars "result" ++ ':' :: ' ' ::
          (strChars (String.mk (strPy v)) ++ [])) ++ ['\x7d'])) := by
  simp [fallbackDoc, dumpsChars, dumpsPairs, dumpsPairSep]

/-- C1: `jsonize` never raises: on encoder success it returns the encoded
text, and when `json.dumps` of the value fails, it returns exactly the JSON
encoding of the mapping `dict result = str value` — which always succeeds —
so the result is a text string for every input. -/
theorem jsonize_total_with_fallback (v : PyVal) :
    (∀ l : List Char, dumpsChars v = some l → jsonize v = String.mk l) ∧
    (dumpsChars v = Option.none →
      ∃ l : List Char, dumpsChars (fallbackDoc v) = some l ∧
        jsonize v = String.mk l) := by
  constructor
  · intro l h
    simp [jsonize, h]
  · intro h
    exact ⟨_, dumpsChars_fallbackDoc v, by simp [jsonize, h, dumpsChars_fallbackDoc v]⟩

/-- Witness for C1 at a non-serializable object: encoding fails and the
fallback document's encoding is returned. -/
theorem jsonize_total_with_fallback_witness :
    dumpsChars (PyVal.obj "X") = Option.none ∧
    ∃ l : List Char, dumpsChars (fallbackDoc (PyVal.obj "X")) = some l ∧
      jsonize (PyVal.obj "X") = String.mk l :=
  ⟨by simp [dumpsChars],
   (jsonize_total_with_fallback (PyVal.obj "X")).2 (by simp [dumpsChars])⟩

mutual

/-- Serializing `tolist` of an array is exactly `dumpsNd` of the array: the
encoder hook's `tolist` conversion followed by `json.dumps` never fails and
produces the array's serialization. -/
theorem dumpsChars_tolist : ∀ a : NpArr, dumpsChars a.tolist = some (dumpsNd a)
  | .item n => by
    simp [NpArr.tolist, dumpsChars, dumpsNd]
  | .row xs => by
    rw [show NpArr.tolist (.row xs) = .list (tolistRow xs) from rfl]
    simp [dumpsChars, dumpsNd, dumpsElems_tolistRow xs]

/-- Companion of `dumpsChars_tolist` for the elements of one axis. -/
theorem dumpsElems_tolistRow :
    ∀ xs : List NpArr, dumpsElems (tolistRow xs) = some (dumpsNdElems xs)
  | [] => by simp [tolistRow, dumpsElems, dumpsNdElems]
  | x :: xs => by
    rw [show tolistRow (x :: xs) = NpArr.tolist x :: tolistRow xs from rfl]
    simp [dumpsElems, dumpsNdElems, dumpsChars_tolist x, dumpsSep_tolistRow xs]

/-- Companion of `dumpsChars_tolist` for an axis continuation. -/
theorem dumpsSep_tolistRow :
    ∀ xs : List NpArr, dumpsSep (tolistRow xs) = some (dumpsNdSep xs)
  | [] => by simp [tolistRow, dumpsSep, dumpsNdSep]
  | x :: xs => by
    rw [show tolistRow (x :: xs) = NpArr.tolist x :: tolistRow xs from rfl]
    simp [dumpsSep, dumpsNdSep, dumpsChars_tolist x, dumpsSep_tolistRow xs]

end

/-- C7: the encoder serializes numpy values as their native equivalents: a
boxed numeric scalar encodes exactly like the unboxed native integer (and
the text is the plain number, not an object), and a multi-dimensional array
encodes exactly like `tolist` of it, the equivalent nested native sequence
in row-major order. -/
theorem jsonize_numpy_as_native :
    (∀ n : Int, jsonize (PyVal.npScalar n) = jsonize (PyVal.int n)) ∧
    (∀ n : Int, jsonize (PyVal.npScalar n) = String.mk (intChars n)) ∧
    (∀ a : NpArr, jsonize (PyVal.npArray a) = jsonize a.tolist) := by
  refine ⟨fun n => by simp [jsonize, dumpsChars], fun n => by simp [jsonize, dumpsChars], ?_⟩
  intro a
  simp [jsonize, dumpsChars, dumpsChars_tolist a]

/-! ## Round-trip, part 1: integers -/

/-- The character of a decimal digit carries its value and is a digit. -/
theorem digitChar_spec (d : Nat) (h : d < 10) :
    (Char.ofNat (48 + d)).toNat = 48 + d ∧ isDig (Char.ofNat (48 + d)) = true := by
  interval_cases d <;> exact ⟨rfl, rfl⟩

/-- `natChars` is never empty. -/
theorem natChars_ne_nil (n : Nat) : natChars n ≠ [] := by
  rw [natChars.eq_def]
  split <;> simp

/-- Every character of `natChars` is a decimal digit. -/
theorem natChars_digits (n : Nat) : ∀ c ∈ natChars n, isDig c = true := by
  induction n using Nat.strongRecOn with
  | _ n ih =>
    rw [natChars.eq_def]
    split
    · intro c hc
      rw [List.mem_singleton] at hc
      subst hc
      exact (digitChar_spec n (by omega)).2
    · intro c hc
      rw [List.mem_append] at hc
      rcases hc with hc | hc
      · exact ih (n / 10) (Nat.div_lt_self (by omega) (by omega)) c hc
      · rw [List.mem_singleton] at hc
        subst hc
        exact (digitChar_spec (n % 10) (Nat.mod_lt _ (by omega))).2

/-- Reading back the digits of `n` yields `n`. -/
theorem digitsToNat_natChars (n : Nat) : digitsToNat (natChars n) = n := by
  induction n using Nat.strongRecOn with
  | _ n ih =>
    rw [natChars.eq_def]
    split
    · simp only [digitsToNat, List.foldl_cons, List.foldl_nil]
      rw [(digitChar_spec n (by omega)).1]
      omega
    · simp only [digitsToNat, List.foldl_append, List.foldl_cons, List.foldl_nil]
      have hv := ih (n / 10) (Nat.div_lt_self (by omega) (by omega))
      simp only [digitsToNat] at hv
      rw [hv, (digitChar_spec (n % 10) (Nat.mod_lt _ (by omega))).1]
      omega

/-- A digit run followed by a non-digit splits cleanly under
`takeWhile`/`dropWhile`. -/
theorem digits_split (ds rest : List Char) (hds : ∀ c ∈ ds, isDig c = true)
    (hrest : headIsDig rest = false) :
    (ds ++ rest).takeWhile isDig = ds ∧ (ds ++ rest).dropWhile isDig = rest := by
  induction ds with
  | nil =>
    cases rest with
    | nil => exact ⟨rfl, rfl⟩
    | cons c t =>
      have hc : isDig c = false := hrest
      simp [List.takeWhile_cons, List.dropWhile_cons, hc]
  | cons c ds ih =>
    have hc : isDig c = true := hds c (List.mem_cons_self _ _)
    have := ih (fun x hx => hds x (List.mem_cons_of_mem _ hx))
    simp [List.takeWhile_cons, List.dropWhile_cons, hc, this.1, this.2]

/-- `readNatPart` inverts `natChars` whenever the remainder does not begin
with a digit. -/
theorem readNatPart_natChars (n : Nat) (rest : List Char)
    (hrest : headIsDig rest = false) :
    readNatPart (natChars n ++ rest) = some (n, rest) := by
  obtain ⟨htake, hdrop⟩ := digits_split (natChars n) rest (natChars_digits n) hrest
  simp only [readNatPart, htake, hdrop, List.isEmpty_iff]
  rw [if_neg (natChars_ne_nil n), digitsToNat_natChars]

/-- `natChars` begins with a digit character. -/
theorem natChars_cons (n : Nat) :
    ∃ c t, natChars n = c :: t ∧ isDig c = true := by
  match h : natChars n with
  | [] => exact absurd h (natChars_ne_nil n)
  | c :: t => exact ⟨c, t, rfl, natChars_digits n c (h ▸ List.mem_cons_self _ _)⟩

/-- A digit character is none of the parser's dispatch characters. -/
theorem isDig_ne (c : Char) (h : isDig c = true) :
    c ≠ 'n' ∧ c ≠ 't' ∧ c ≠ 'f' ∧ c ≠ '"' ∧ c ≠ '[' ∧ c ≠ '\x7b' ∧ c ≠ '-' ∧
    c ≠ ']' ∧ c ≠ '\x7d' ∧ c ≠ ',' ∧ pyWs c = false := by
  have hp : 48 ≤ c.toNat ∧ c.toNat ≤ 57 := by simpa [isDig] using h
  have hws : c ≠ ' ' ∧ c ≠ '\t' ∧ c ≠ '\n' ∧ c ≠ '\x0d' := by
    refine ⟨?_, ?_, ?_, ?_⟩ <;> (intro hc; subst hc; exact absurd hp (by decide))
  refine ⟨?_, ?_, ?_, ?_, ?_, ?_, ?_, ?_, ?_, ?_,
    by simp [pyWs, hws.1, hws.2.1, hws.2.2.1, hws.2.2.2]⟩ <;>
    (intro hc; subst hc; exact absurd hp (by decide))

/-- `readInt` inverts `intChars` whenever the remainder does not begin with
a digit. -/
theorem readInt_intChars (i : Int) (rest : List Char)
    (hrest : headIsDig rest = false) :
    readInt (intChars i ++ rest) = some (i, rest) := by
  by_cases hi : i < 0
  · have harg : intChars i ++ rest = '-' :: (natChars i.natAbs ++ rest) := by
      simp [intChars, hi]
    rw [harg]
    simp only [readInt, if_pos rfl, readNatPart_natChars i.natAbs rest hrest,
      Option.map_some']
    have hni : -(i.natAbs : Int) = i := by omega
    rw [hni]
    simp
  · obtain ⟨c, t, hct, hc⟩ := natChars_cons i.natAbs
    have harg : intChars i ++ rest = c :: (t ++ rest) := by
      simp [intChars, hi, hct]
    rw [harg]
    simp only [readInt, if_neg (isDig_ne c hc).2.2.2.2.2.2.1]
    rw [show c :: (t ++ rest) = (c :: t) ++ rest from rfl, ← hct,
      readNatPart_natChars i.natAbs rest hrest, Option.map_some']
    have hni : (i.natAbs : Int) = i := by omega
    rw [hni]

/-! ## Round-trip, part 2: strings -/

/-- Structure eta for strings: rebuilding a string from its characters is
the identity. -/
theorem string_mk_data (s : String) : String.mk s.data = s := rfl

/-- `hexVal` inverts `hexDig` on hexadecimal digit values. -/
theorem hexVal_hexDig (d : Nat) (h : d < 16) : hexVal (hexDig d) = some d := by
  interval_cases d <;> rfl

/-- Reading one escaped character prepends exactly that character. -/
theorem readStrChars_escape (c : Char) (tl : List Char) :
    readStrChars (escapeChar c ++ tl)
      = (readStrChars tl).map (fun p => (c :: p.1, p.2)) := by
  by_cases hq : c = '"'
  · subst hq
    simp [escapeChar, readStrChars, unesc]
  · by_cases hb : c = '\\'
    · subst hb
      simp [escapeChar, readStrChars, unesc]
    · by_cases hctl : c.toNat < 32
      · have he : escapeChar c ++ tl
            = '\\' :: 'u' :: '0' :: '0' :: hexDig (c.toNat / 16)
              :: hexDig (c.toNat % 16) :: tl := by
          simp [escapeChar, hq, hb, hctl]
        rw [he]
        have h16 : c.toNat / 16 < 16 := by omega
        have h16' : c.toNat % 16 < 16 := Nat.mod_lt _ (by omega)
        simp only [readStrChars, if_neg (by decide : ¬('\\' = '"')), if_pos rfl,
          hexVal_hexDig _ h16, hexVal_hexDig _ h16',
          show hexVal '0' = some 0 from rfl]
        have harith : (((0 * 16 + 0) * 16 + c.toNat / 16) * 16) + c.toNat % 16
            = c.toNat := by omega
        rw [harith, Char.ofNat_toNat]
        simp
      · have he : escapeChar c ++ tl = c :: tl := by
          simp [escapeChar, hq, hb, hctl]
        rw [he, readStrChars.eq_def]
        simp [hq, hb]

/-- Reading an escaped body stops at the closing quote and recovers the
original characters. -/
theorem readStrChars_flat (ks : List Char) (tl : List Char) :
    readStrChars (ks.flatMap escapeChar ++ '"' :: tl) = some (ks, tl) := by
  induction ks with
  | nil =>
    rw [List.flatMap_nil, List.nil_append, readStrChars.eq_def]
    simp
  | cons k ks ih =>
    rw [List.flatMap_cons, List.append_assoc, readStrChars_escape, ih]
    rfl

/-! ## Round-trip, part 3: head shapes and whitespace -/

/-- `intChars` begins with a minus sign or a digit. -/
theorem intChars_cons (i : Int) :
    ∃ c t, intChars i = c :: t ∧ (c = '-' ∨ isDig c = true) := by
  by_cases hi : i < 0
  · exact ⟨'-', natChars i.natAbs, by simp [intChars, hi], Or.inl rfl⟩
  · obtain ⟨c, t, hct, hc⟩ := natChars_cons i.natAbs
    exact ⟨c, t, by simp [intChars, hi, hct], Or.inr hc⟩

/-- Dropping whitespace is the identity on input that starts with a
non-whitespace character. -/
theorem dropWs_cons (c : Char) (t : List Char) (h : pyWs c = false) :
    dropWs (c :: t) = c :: t := by
  simp [dropWs, h]

/-- Every serialized value begins with a non-whitespace character that is
not a closing bracket. -/
theorem dumpsChars_cons (v : PyVal) (l : List Char) (h : dumpsChars v = some l) :
    ∃ c t, l = c :: t ∧ pyWs c = false ∧ c ≠ ']' := by
  cases v with
  | none =>
    simp only [dumpsChars, Option.some.injEq] at h
    exact ⟨'n', _, h.symm, by decide, by decide⟩
  | bool b =>
    cases b with
    | false =>
      simp only [dumpsChars, Option.some.injEq] at h
      exact ⟨'f', ['a', 'l', 's', 'e'], by rw [← h]; simp, by decide, by decide⟩
    | true =>
      simp only [dumpsChars, Option.some.injEq] at h
      exact ⟨'t', ['r', 'u', 'e'], by rw [← h]; simp, by decide, by decide⟩
  | int n =>
    simp only [dumpsChars, Option.some.injEq] at h
    obtain ⟨c, t, hct, hc⟩ := intChars_cons n
    refine ⟨c, t, by rw [← h, hct], ?_, ?_⟩
    · rcases hc with rfl | hc
      · decide
      · exact (isDig_ne c hc).2.2.2.2.2.2.2.2.2.2
    · rcases hc with rfl | hc
      · decide
      · exact (isDig_ne c hc).2.2.2.2.2.2.2.1
  | str s =>
    simp only [dumpsChars, Option.some.injEq] at h
    exact ⟨'"', _, by rw [← h]; rfl, by decide, by decide⟩
  | list xs =>
    simp only [dumpsChars, Option.map_eq_some'] at h
    obtain ⟨m, _, hm⟩ := h
    exact ⟨'[', _, hm.symm, by decide, by decide⟩
  | dict kvs =>
    simp only [dumpsChars, Option.map_eq_some'] at h
    obtain ⟨m, _, hm⟩ := h
    exact ⟨'\x7b', _, hm.symm, by decide, by decide⟩
  | npScalar n =>
    simp only [dumpsChars, Option.some.injEq] at h
    obtain ⟨c, t, hct, hc⟩ := intChars_cons n
    refine ⟨c, t, by rw [← h, hct], ?_, ?_⟩
    · rcases hc with rfl | hc
      · decide
      · exact (isDig_ne c hc).2.2.2.2.2.2.2.2.2.2
    · rcases hc with rfl | hc
      · decide
      · exact (isDig_ne c hc).2.2.2.2.2.2.2.1
  | npArray a =>
    simp only [dumpsChars, Option.some.injEq] at h
    cases a with
    | item n =>
      simp only [dumpsNd] at h
      obtain ⟨c, t, hct, hc⟩ := intChars_cons n
      refine ⟨c, t, by rw [← h, hct], ?_, ?_⟩
      · rcases hc with rfl | hc
        · decide
        · exact (isDig_ne c hc).2.2.2.2.2.2.2.2.2.2
      · rcases hc with rfl | hc
        · decide
        · exact (isDig_ne c hc).2.2.2.2.2.2.2.1
    | row xs =>
      simp only [dumpsNd] at h
      exact ⟨'[', _, h.symm, by decide, by decide⟩
  | obj s =>
    simp [dumpsChars] at h

/-- An array-continuation serialization is empty or begins with `", "`. -/
theorem dumpsSep_shape (xs : List PyVal) (m : List Char) (h : dumpsSep xs = some m) :
    m = [] ∨ ∃ t, m = ',' :: ' ' :: t := by
  cases xs with
  | nil =>
    simp only [dumpsSep, Option.some.injEq] at h
    exact Or.inl h.symm
  | cons x xs =>
    cases hx : dumpsChars x <;> cases hs : dumpsSep xs <;>
      simp [dumpsSep, hx, hs] at h
    exact Or.inr ⟨_, h.symm⟩

/-- An object-continuation serialization is empty or begins with `", "`. -/
theorem dumpsPairSep_shape (kvs : List (String × PyVal)) (m : List Char)
    (h : dumpsPairSep kvs = some m) :
    m = [] ∨ ∃ t, m = ',' :: ' ' :: t := by
  cases kvs with
  | nil =>
    simp only [dumpsPairSep, Option.some.injEq] at h
    exact Or.inl h.symm
  | cons kv kvs =>
    obtain ⟨k, v⟩ := kv
    cases hx : dumpsChars v <;> cases hs : dumpsPairSep kvs <;>
      simp [dumpsPairSep, hx, hs] at h
    exact Or.inr ⟨_, h.symm⟩

/-- A continuation followed by a closing bracket never starts with a digit. -/
theorem headIsDig_sep (m rest : List Char) (d : Char)
    (hm : m = [] ∨ ∃ t, m = ',' :: ' ' :: t) (hd : isDig d = false) :
    headIsDig (m ++ d :: rest) = false := by
  rcases hm with rfl | ⟨t, rfl⟩
  · exact hd
  · rfl

/-- The value parser ignores one leading whitespace character. -/
theorem parseItem_cons_ws (f : Nat) (c : Char) (cs : List Char)
    (hws : pyWs c = true) :
    parseItem (f + 1) (c :: cs) = parseItem (f + 1) cs := by
  have hd : dropWs (c :: cs) = dropWs cs := by simp [dropWs, hws]
  simp only [parseItem, hd]

/-! ## Round-trip, part 4: the main induction -/

/-- The pair parser ignores one leading whitespace character. -/
theorem parsePair_cons_ws (f : Nat) (c : Char) (cs : List Char)
    (hws : pyWs c = true) :
    parsePair (f + 1) (c :: cs) = parsePair (f + 1) cs := by
  have hd : dropWs (c :: cs) = dropWs cs := by simp [dropWs, hws]
  simp only [parsePair, hd]

/-- The component inequalities of a non-whitespace character. -/
theorem pyWs_parts (c : Char) (h : pyWs c = false) :
    c ≠ ' ' ∧ c ≠ '\t' ∧ c ≠ '\n' ∧ c ≠ '\x0d' := by
  have h' := h
  simp only [pyWs, decide_eq_false_iff_not, not_or] at h'
  exact h'

/-- Dispatch of the value parser into the number branch. -/
theorem parseItem_num (f : Nat) (c : Char) (t : List Char)
    (hws : pyWs c = false) (hn : c ≠ 'n') (ht : c ≠ 't') (hf : c ≠ 'f')
    (hq : c ≠ '"') (hbk : c ≠ '[') (hbr : c ≠ '\x7b')
    (hnum : c = '-' ∨ isDig c = true) :
    parseItem (f + 1) (c :: t)
      = (readInt (c :: t)).map (fun p => (PyVal.int p.1, p.2)) := by
  simp only [parseItem, dropWs_cons c t hws]
  simp [hn, ht, hf, hq, hbk, hbr, hnum]

mutual

/-- Parsing a serialized native value (with enough fuel, followed by input
that cannot extend a number) recovers the value. -/
theorem rt_item : ∀ (v : PyVal) (l : List Char), isNative v = true →
    dumpsChars v = some l →
    ∀ (fu : Nat) (rest : List Char), l.length < fu → headIsDig rest = false →
    parseItem fu (l ++ rest) = some (v, rest)
  | .none, l, _, hd, fu, rest, hfu, _ => by
    simp only [dumpsChars, Option.some.injEq] at hd
    subst hd
    cases fu with
    | zero => omega
    | succ f => simp [parseItem, dropWs, pyWs]
  | .bool true, l, _, hd, fu, rest, hfu, _ => by
    simp only [dumpsChars, Option.some.injEq] at hd
    subst hd
    cases fu with
    | zero => simp at hfu
    | succ f => simp [parseItem, dropWs, pyWs]
  | .bool false, l, _, hd, fu, rest, hfu, _ => by
    simp only [dumpsChars, Option.some.injEq] at hd
    subst hd
    cases fu with
    | zero => simp at hfu
    | succ f => simp [parseItem, dropWs, pyWs]
  | .int n, l, _, hd, fu, rest, hfu, hrest => by
    simp only [dumpsChars, Option.some.injEq] at hd
    subst hd
    cases fu with
    | zero => omega
    | succ f =>
      obtain ⟨c, t, hct, hc⟩ := intChars_cons n
      have hnum : parseItem (f + 1) (intChars n ++ rest)
          = (readInt (intChars n ++ rest)).map (fun p => (PyVal.int p.1, p.2)) := by
        rw [hct, List.cons_append]
        rcases hc with rfl | hdig
        · exact parseItem_num f '-' (t ++ rest) (by decide) (by decide) (by decide)
            (by decide) (by decide) (by decide) (by decide) (Or.inl rfl)
        · obtain ⟨h1, h2, h3, h4, h5, h6, _, _, _, _, h11⟩ := isDig_ne c hdig
          exact parseItem_num f c (t ++ rest) h11 h1 h2 h3 h4 h5 h6 (Or.inr hdig)
      rw [hnum, readInt_intChars n rest hrest, Option.map_some']
  | .str s, l, _, hd, fu, rest, hfu, _ => by
    simp only [dumpsChars, Option.some.injEq] at hd
    subst hd
    cases fu with
    | zero => omega
    | succ f =>
      have harg : strChars s ++ rest
          = '"' :: (s.data.flatMap escapeChar ++ ('"' :: rest)) := by
        simp [strChars]
      rw [harg]
      simp only [parseItem,
        dropWs_cons '"' (s.data.flatMap escapeChar ++ ('"' :: rest)) (by decide)]
      simp [readStrChars_flat, string_mk_data]
  | .list [], l, _, hd, fu, rest, hfu, _ => by
    simp only [dumpsChars, dumpsElems, Option.map_some', Option.some.injEq] at hd
    subst hd
    cases fu with
    | zero => simp at hfu
    | succ f => simp [parseItem, dropWs, pyWs]
  | .list (x :: xs'), l, hnat, hd, fu, rest, hfu, _ => by
    have hnat' : isNativeElems (x :: xs') = true := by simpa [isNative] using hnat
    have hnx : isNative x = true ∧ isNativeElems xs' = true := by
      simpa [isNativeElems, Bool.and_eq_true] using hnat'
    simp only [dumpsChars, Option.map_eq_some'] at hd
    obtain ⟨m, hm, hl⟩ := hd
    subst hl
    cases fu with
    | zero => omega
    | succ f =>
      cases hx : dumpsChars x with
      | none => simp [dumpsElems, hx] at hm
      | some a =>
        cases hs : dumpsSep xs' with
        | none => simp [dumpsElems, hx, hs] at hm
        | some b =>
          have hm' : a ++ b = m := by simpa [dumpsElems, hx, hs] using hm
          subst hm'
          obtain ⟨c, t, hct, hcws, hcbr⟩ := dumpsChars_cons x a hx
          obtain ⟨hw1, hw2, hw3, hw4⟩ := pyWs_parts c hcws
          have halen : a.length = t.length + 1 := by rw [hct]; rfl
          simp only [List.length_cons, List.length_append] at hfu
          have h1 := rt_item x a hnx.1 hx f (b ++ (']' :: rest))
            (by omega)
            (headIsDig_sep b rest ']' (dumpsSep_shape xs' b hs) (by decide))
          have h2 := rt_arrTail xs' b hnx.2 hs f rest (by omega)
          rw [hct, List.cons_append] at h1
          have harg : ('[' :: ((a ++ b) ++ [']'])) ++ rest
              = '[' :: (c :: (t ++ (b ++ (']' :: rest)))) := by
            rw [hct]
            simp
          rw [harg]
          simp [parseItem, dropWs, pyWs, hw1, hw2, hw3, hw4, hcbr, h1, h2]
  | .dict [], l, _, hd, fu, rest, hfu, _ => by
    simp only [dumpsChars, dumpsPairs, Option.map_some', Option.some.injEq] at hd
    subst hd
    cases fu with
    | zero => simp at hfu
    | succ f => simp [parseItem, dropWs, pyWs]
  | .dict ((k, v) :: kvs'), l, hnat, hd, fu, rest, hfu, _ => by
    have hnat' : isNativePairs ((k, v) :: kvs') = true := by
      simpa [isNative] using hnat
    have hnx : isNative v = true ∧ isNativePairs kvs' = true := by
      simpa [isNativePairs, Bool.and_eq_true] using hnat'
    simp only [dumpsChars, Option.map_eq_some'] at hd
    obtain ⟨m, hm, hl⟩ := hd
    subst hl
    cases fu with
    | zero => omega
    | succ f =>
      cases hx : dumpsChars v with
      | none => simp [dumpsPairs, hx] at hm
      | some a =>
        cases hs : dumpsPairSep kvs' with
        | none => simp [dumpsPairs, hx, hs] at hm
        | some b =>
          have hm' : strChars k ++ ':' :: ' ' :: (a ++ b) = m := by
            simpa [dumpsPairs, hx, hs] using hm
          subst hm'
          have hstr : (strChars k).length
              = (k.data.flatMap escapeChar).length + 2 := by
            simp [strChars]
          simp only [List.length_cons, List.length_append] at hfu
          have h1 := rt_pair k v a hnx.1 hx f (b ++ ('\x7d' :: rest))
            (by omega)
            (headIsDig_sep b rest '\x7d' (dumpsPairSep_shape kvs' b hs) (by decide))
          have h2 := rt_objTail kvs' b hnx.2 hs f rest (by omega)
          have h1' : parsePair f ('"' :: (k.data.flatMap escapeChar
              ++ ('"' :: (':' :: ' ' :: (a ++ (b ++ ('\x7d' :: rest)))))))
              = some ((k, v), b ++ ('\x7d' :: rest)) := by
            have hsh : strChars k ++ (':' :: ' ' :: (a ++ (b ++ ('\x7d' :: rest))))
                = '"' :: (k.data.flatMap escapeChar
                  ++ ('"' :: (':' :: ' ' :: (a ++ (b ++ ('\x7d' :: rest)))))) := by
              simp [strChars]
            rw [← hsh]
            exact h1
          have harg : ('\x7b' :: ((strChars k ++ ':' :: ' ' :: (a ++ b)) ++ ['\x7d'])) ++ rest
              = '\x7b' :: ('"' :: (k.data.flatMap escapeChar
                  ++ ('"' :: (':' :: ' ' :: (a ++ (b ++ ('\x7d' :: rest))))))) := by
            simp [strChars]
          rw [harg]
          simp [parseItem, dropWs, pyWs, h1', h2]
  | .npScalar n, l, hnat, _, _, _, _, _ => by simp [isNative] at hnat
  | .npArray a, l, hnat, _, _, _, _, _ => by simp [isNative] at hnat
  | .obj s, l, hnat, _, _, _, _, _ => by simp [isNative] at hnat
termination_by v _ _ _ _ _ _ _ => sizeOf v

/-- Parsing a serialized array continuation (the `", elem"` repetitions and
the closing bracket) recovers the remaining elements. -/
theorem rt_arrTail : ∀ (xs : List PyVal) (m : List Char), isNativeElems xs = true →
    dumpsSep xs = some m →
    ∀ (fu : Nat) (rest : List Char), m.length + 1 < fu →
    parseArrTail fu (m ++ (']' :: rest)) = some (xs, rest)
  | [], m, _, hm, fu, rest, hfu => by
    have hm0 : m = [] := by simpa [dumpsSep] using hm.symm
    subst hm0
    cases fu with
    | zero => omega
    | succ f => simp [parseArrTail, dropWs, pyWs]
  | x :: xs', m, hnat, hm, fu, rest, hfu => by
    have hnx : isNative x = true ∧ isNativeElems xs' = true := by
      simpa [isNativeElems, Bool.and_eq_true] using hnat
    cases hx : dumpsChars x with
    | none => simp [dumpsSep, hx] at hm
    | some a =>
      cases hs : dumpsSep xs' with
      | none => simp [dumpsSep, hx, hs] at hm
      | some b =>
        have hm' : ',' :: ' ' :: (a ++ b) = m := by
          simpa [dumpsSep, hx, hs] using hm
        subst hm'
        simp only [List.length_cons, List.length_append] at hfu
        cases fu with
        | zero => omega
        | succ f =>
          cases f with
          | zero => omega
          | succ f' =>
            have h1 := rt_item x a hnx.1 hx (f' + 1) (b ++ (']' :: rest))
              (by omega)
              (headIsDig_sep b rest ']' (dumpsSep_shape xs' b hs) (by decide))
            have h1' : parseItem (f' + 1) (' ' :: (a ++ (b ++ (']' :: rest))))
                = some (x, b ++ (']' :: rest)) := by
              rw [parseItem_cons_ws f' ' ' _ (by decide), h1]
            have h2 := rt_arrTail xs' b hnx.2 hs (f' + 1) rest (by omega)
            generalize hg : f' + 1 = g at h1' h2 ⊢
            simp [parseArrTail, dropWs, pyWs, h1', h2]
termination_by xs _ _ _ _ _ _ => sizeOf xs

/-- Parsing a serialized object member (`"key": value`) recovers it. -/
theorem rt_pair : ∀ (k : String) (v : PyVal) (a : List Char), isNative v = true →
    dumpsChars v = some a →
    ∀ (fu : Nat) (rest2 : List Char), a.length + 1 < fu → headIsDig rest2 = false →
    parsePair fu (strChars k ++ (':' :: ' ' :: (a ++ rest2))) = some ((k, v), rest2)
  | k, v, a, hnat, hv, fu, rest2, hfu, hrest2 => by
    obtain ⟨c, t, hct, _, _⟩ := dumpsChars_cons v a hv
    have halen : a.length = t.length + 1 := by rw [hct]; rfl
    cases fu with
    | zero => omega
    | succ f =>
      cases f with
      | zero => omega
      | succ f' =>
        have h2 := rt_item v a hnat hv (f' + 1) rest2 (by omega) hrest2
        have h3 : parseItem (f' + 1) (' ' :: (a ++ rest2)) = some (v, rest2) := by
          rw [parseItem_cons_ws f' ' ' _ (by decide), h2]
        have harg : strChars k ++ (':' :: ' ' :: (a ++ rest2))
            = '"' :: (k.data.flatMap escapeChar
              ++ ('"' :: (':' :: ' ' :: (a ++ rest2)))) := by
          simp [strChars]
        rw [harg]
        generalize hg : f' + 1 = g at h3 ⊢
        simp [parsePair, dropWs, pyWs, readStrChars_flat, h3, string_mk_data]
termination_by _ v _ _ _ _ _ _ _ => 1 + sizeOf v

/-- Parsing a serialized object continuation (the `", "key": value"`
repetitions and the closing brace) recovers the remaining members. -/
theorem rt_objTail : ∀ (kvs : List (String × PyVal)) (m : List Char),
    isNativePairs kvs = true → dumpsPairSep kvs = some m →
    ∀ (fu : Nat) (rest : List Char), m.length + 1 < fu →
    parseObjTail fu (m ++ ('\x7d' :: rest)) = some (kvs, rest)
  | [], m, _, hm, fu, rest, hfu => by
    have hm0 : m = [] := by simpa [dumpsPairSep] using hm.symm
    subst hm0
    cases fu with
    | zero => omega
    | succ f => simp [parseObjTail, dropWs, pyWs]
  | (k, v) :: kvs', m, hnat, hm, fu, rest, hfu => by
    have hnx : isNative v = true ∧ isNativePairs kvs' = true := by
      simpa [isNativePairs, Bool.and_eq_true] using hnat
    cases hx : dumpsChars v with
    | none => simp [dumpsPairSep, hx] at hm
    | some a =>
      cases hs : dumpsPairSep kvs' with
      | none => simp [dumpsPairSep, hx, hs] at hm
      | some b =>
        have hm' : ',' :: ' ' :: (strChars k ++ ':' :: ' ' :: (a ++ b)) = m := by
          simpa [dumpsPairSep, hx, hs] using hm
        subst hm'
        have hstr : (strChars k).length
            = (k.data.flatMap escapeChar).length + 2 := by
          simp [strChars]
        simp only [List.length_cons, List.length_append] at hfu
        cases fu with
        | zero => omega
        | succ f =>
          cases f with
          | zero => omega
          | succ f' =>
            have h1 := rt_pair k v a hnx.1 hx (f' + 1) (b ++ ('\x7d' :: rest))
              (by omega)
              (headIsDig_sep b rest '\x7d' (dumpsPairSep_shape kvs' b hs) (by decide))
            have h1' : parsePair (f' + 1)
                (' ' :: (strChars k ++ (':' :: ' ' :: (a ++ (b ++ ('\x7d' :: rest))))))
                = some ((k, v), b ++ ('\x7d' :: rest)) := by
              rw [parsePair_cons_ws f' ' ' _ (by decide), h1]
            have h2 := rt_objTail kvs' b hnx.2 hs (f' + 1) rest (by omega)
            generalize hg : f' + 1 = g at h1' h2 ⊢
            simp [parseObjTail, dropWs, pyWs, h1', h2]
termination_by kvs _ _ _ _ _ _ => sizeOf kvs

end

mutual

/-- A native value always serializes. -/
theorem isNative_dumps : ∀ v : PyVal, isNative v = true →
    ∃ l : List Char, dumpsChars v = some l
  | .none, _ => ⟨_, rfl⟩
  | .bool b, _ => ⟨_, rfl⟩
  | .int n, _ => ⟨_, rfl⟩
  | .str s, _ => ⟨_, rfl⟩
  | .list xs, h => by
    obtain ⟨m, hm⟩ := isNativeElems_dumps xs (by simpa [isNative] using h)
    exact ⟨'[' :: (m ++ [']']), by simp [dumpsChars, hm]⟩
  | .dict kvs, h => by
    obtain ⟨m, hm⟩ := isNativePairs_dumps kvs (by simpa [isNative] using h)
    exact ⟨'\x7b' :: (m ++ ['\x7d']), by simp [dumpsChars, hm]⟩
  | .npScalar n, h => by simp [isNative] at h
  | .npArray a, h => by simp [isNative] at h
  | .obj s, h => by simp [isNative] at h

/-- Native list elements always serialize. -/
theorem isNativeElems_dumps : ∀ xs : List PyVal, isNativeElems xs = true →
    ∃ m : List Char, dumpsElems xs = some m
  | [], _ => ⟨[], rfl⟩
  | x :: xs, h => by
    have hx : isNative x = true ∧ isNativeElems xs = true := by
      simpa [isNativeElems, Bool.and_eq_true] using h
    obtain ⟨a, ha⟩ := isNative_dumps x hx.1
    obtain ⟨b, hb⟩ := isNativeSep_dumps xs hx.2
    exact ⟨a ++ b, by simp [dumpsElems, ha, hb]⟩

/-- Native list continuations always serialize. -/
theorem isNativeSep_dumps : ∀ xs : List PyVal, isNativeElems xs = true →
    ∃ m : List Char, dumpsSep xs = some m
  | [], _ => ⟨[], rfl⟩
  | x :: xs, h => by
    have hx : isNative x = true ∧ isNativeElems xs = true := by
      simpa [isNativeElems, Bool.and_eq_true] using h
    obtain ⟨a, ha⟩ := isNative_dumps x hx.1
    obtain ⟨b, hb⟩ := isNativeSep_dumps xs hx.2
    exact ⟨',' :: ' ' :: (a ++ b), by simp [dumpsSep, ha, hb]⟩

/-- Native dict members always serialize. -/
theorem isNativePairs_dumps : ∀ kvs : List (String × PyVal),
    isNativePairs kvs = true → ∃ m : List Char, dumpsPairs kvs = some m
  | [], _ => ⟨[], rfl⟩
  | (k, v) :: kvs, h => by
    have hx : isNative v = true ∧ isNativePairs kvs = true := by
      simpa [isNativePairs, Bool.and_eq_true] using h
    obtain ⟨a, ha⟩ := isNative_dumps v hx.1
    obtain ⟨b, hb⟩ := isNativePairSep_dumps kvs hx.2
    exact ⟨strChars k ++ ':' :: ' ' :: (a ++ b), by simp [dumpsPairs, ha, hb]⟩

/-- Native dict continuations always serialize. -/
theorem isNativePairSep_dumps : ∀ kvs : List (String × PyVal),
    isNativePairs kvs = true → ∃ m : List Char, dumpsPairSep kvs = some m
  | [], _ => ⟨[], rfl⟩
  | (k, v) :: kvs, h => by
    have hx : isNative v = true ∧ isNativePairs kvs = true := by
      simpa [isNativePairs, Bool.and_eq_true] using h
    obtain ⟨a, ha⟩ := isNative_dumps v hx.1
    obtain ⟨b, hb⟩ := isNativePairSep_dumps kvs hx.2
    exact ⟨',' :: ' ' :: (strChars k ++ ':' :: ' ' :: (a ++ b)), by simp [dumpsPairSep, ha, hb]⟩

end

/-- C8: for every value composed only of natively JSON-representable shapes,
parsing `jsonize` of it with the standard JSON parser yields a value equal
to the original input. -/
theorem jsonize_roundtrip (v : PyVal) (h : isNative v = true) :
    parseJson (jsonize v) = some v := by
  obtain ⟨l, hl⟩ := isNative_dumps v h
  have hj : jsonize v = String.mk l := by simp [jsonize, hl]
  rw [hj]
  show (match parseItem ((String.mk l).data.length + 1) (String.mk l).data with
    | some (w, rest) => if dropWs rest = [] then some w else Option.none
    | Option.none => Option.none) = some v
  have hdata : (String.mk l).data = l := rfl
  rw [hdata]
  have hp := rt_item v l h hl (l.length + 1) [] (by omega) rfl
  rw [List.append_nil] at hp
  rw [hp]
  rfl

/-- Witness for C8 at a nested concrete document with a dict, a list, a
negative number, booleans, null and an escaped quote in a string. -/
theorem jsonize_roundtrip_witness :
    isNative (PyVal.dict [("a", PyVal.int (-12)),
      ("b", PyVal.list [PyVal.none, PyVal.bool true, PyVal.str "x\"y"])]) = true ∧
    parseJson (jsonize (PyVal.dict [("a", PyVal.int (-12)),
      ("b", PyVal.list [PyVal.none, PyVal.bool true, PyVal.str "x\"y"])]))
      = some (PyVal.dict [("a", PyVal.int (-12)),
        ("b", PyVal.list [PyVal.none, PyVal.bool true, PyVal.str "x\"y"])]) := by
  constructor
  · simp [isNative, isNativeElems, isNativePairs]
  · exact jsonize_roundtrip _ (by simp [isNative, isNativeElems, isNativePairs])
